import Mathlib

/-!
Verification of the client-side envelope-encryption core of the
password-vault repository.

The embedding models, at the byte level, the code of
`src/app/utils/encryption.ts` (`EncryptionService`, `SimpleEncryptionService`),
`src/lib/security.ts` (`SecurityService`, `ClientEncryption`),
`src/app/components/VaultList.tsx` (`SecureClientDecryption`,
`SimpleClientDecryption`, `decryptPassword`),
`src/app/dashboard/page.tsx` (`SecureClientEncryption`,
`SimpleClientEncryption`) and
`src/app/components/AdvancedPasswordGenerator.tsx` (`calculateStrength`).

Modelling conventions:
- JavaScript binary strings and `Uint8Array`s are `List Nat` of byte values;
  JavaScript strings handled with `charCodeAt` are `List Nat` of UTF-16 code
  units (`jsStr`), while `TextEncoder` and node utf8 conversions are the
  explicit `utf8Encode`.
- External cryptographic primitives (PBKDF2, the AES-GCM keystream and the
  AES block permutation) are not code of this repository.  PBKDF2 is modelled
  as an ideal key-derivation function: a `DerivedKey` value records exactly
  the inputs the libraries hash, so it is deterministic; the libraries
  guarantee an output of `keyLen` bytes.  The AES-GCM keystream and the AES
  block permutation are explicit function parameters of the models, so the
  theorems below hold for the real primitives as well; the 16-byte GCM
  authentication tag is modelled ideally as the triple
  (key, nonce, ciphertext) it authenticates.
- `btoa`, `atob` and hex conversion are modelled exactly, including the
  `btoa` failure on code units above 255.
- Randomness consumed by `encrypt` functions (salts, nonces, the
  `Math.random` suffixes of the fallback) is passed in as explicit
  arguments.
-/

namespace Vault

/-- UTF-16 code units of a JavaScript string, as read by `charCodeAt`.
Faithful for strings of characters in the basic multilingual plane, which
covers every use in the code paths modelled here. -/
def jsStr (s : String) : List Nat := s.data.map Char.toNat

/-- Standard UTF-8 encoding of one character (code point). -/
def utf8EncodeChar (c : Char) : List Nat :=
  if c.toNat < 128 then [c.toNat]
  else if c.toNat < 2048 then [192 + c.toNat / 64, 128 + c.toNat % 64]
  else if c.toNat < 65536 then
    [224 + c.toNat / 4096, 128 + (c.toNat / 64) % 64, 128 + c.toNat % 64]
  else
    [240 + c.toNat / 262144, 128 + (c.toNat / 4096) % 64,
     128 + (c.toNat / 64) % 64, 128 + c.toNat % 64]

/-- UTF-8 bytes of a string, as produced by `TextEncoder.encode` and by the
node `Buffer`/cipher utf8 conversions. -/
def utf8Encode (s : String) : List Nat := (s.data.map utf8EncodeChar).flatten

/-- Byte-wise XOR of two byte sequences (truncating at the shorter one, as
`List.zipWith` does; the callers below always pass equal lengths). -/
def zipXor (a b : List Nat) : List Nat := List.zipWith (fun x y => x ^^^ y) a b

/-- The indexed XOR loop shared by `SimpleClientEncryption.encrypt`,
`SimpleClientEncryption.decrypt` and `SimpleClientDecryption.decrypt`:
character `i` is XORed with `key.charCodeAt(i % key.length)`. -/
def xorWithKey (key : List Nat) : Nat → List Nat → List Nat
  | _, [] => []
  | i, d :: ds => (d ^^^ key.getD (i % key.length) 0) :: xorWithKey key (i + 1) ds

/-- Flip bit `j` of the first byte of a byte list (used to state
tamper-detection properties about single-bit modifications). -/
def flipHeadBit (j : Nat) : List Nat → List Nat
  | [] => []
  | x :: xs => (x ^^^ 2 ^ j) :: xs

/-! ## Hex codec

`Buffer.toString('hex')` and `Buffer.from(str, 'hex')` as used by
`EncryptionService` and `SimpleEncryptionService`.  The model decodes only
well-formed hex of even length and rejects anything else; the modelled code
paths only ever decode hex that was produced by `hexEncode`. -/

/-- Code of one lowercase hex digit, for a value below 16. -/
def hexDigit (n : Nat) : Nat := if n < 10 then 48 + n else 87 + n

/-- Value of one hex digit character code. -/
def hexVal (c : Nat) : Option Nat :=
  if 48 ≤ c ∧ c ≤ 57 then some (c - 48)
  else if 97 ≤ c ∧ c ≤ 102 then some (c - 87)
  else if 65 ≤ c ∧ c ≤ 70 then some (c - 55)
  else none

/-- Hex encoding of a byte list, two digits per byte. -/
def hexEncode : List Nat → List Nat
  | [] => []
  | b :: bs => hexDigit (b / 16) :: hexDigit (b % 16) :: hexEncode bs

/-- Hex decoding of a character-code list. -/
def hexDecode : List Nat → Option (List Nat)
  | [] => some []
  | c1 :: c2 :: rest => do
      let h ← hexVal c1
      let l ← hexVal c2
      let r ← hexDecode rest
      some ((h * 16 + l) :: r)
  | _ => none

/-! ## Base64 codec

`btoa` and `atob` as used by `SecureClientEncryption`,
`SecureClientDecryption`, `SimpleClientEncryption` and
`SimpleClientDecryption`, and `Buffer.toString('base64')` in
`encryptForStorage`.  `btoa` fails (throws `InvalidCharacterError`) on any
code unit above 255; `atob` fails on anything that is not well-formed
base64. -/

/-- Character code of one base64 digit, for a value below 64. -/
def b64Char (n : Nat) : Nat :=
  if n < 26 then 65 + n
  else if n < 52 then 97 + (n - 26)
  else if n < 62 then 48 + (n - 52)
  else if n = 62 then 43
  else 47

/-- Value of one base64 digit character code. -/
def b64Val (c : Nat) : Option Nat :=
  if 65 ≤ c ∧ c ≤ 90 then some (c - 65)
  else if 97 ≤ c ∧ c ≤ 122 then some (c - 97 + 26)
  else if 48 ≤ c ∧ c ≤ 57 then some (c - 48 + 52)
  else if c = 43 then some 62
  else if c = 47 then some 63
  else none

/-- Base64 encoding of a byte list; 61 is the code of the padding char. -/
def btoaBytes : List Nat → List Nat
  | [] => []
  | [a] => [b64Char (a / 4), b64Char (a % 4 * 16), 61, 61]
  | [a, b] => [b64Char (a / 4), b64Char (a % 4 * 16 + b / 16), b64Char (b % 16 * 4), 61]
  | a :: b :: c :: rest =>
      b64Char (a / 4) :: b64Char (a % 4 * 16 + b / 16) ::
      b64Char (b % 16 * 4 + c / 64) :: b64Char (c % 64) :: btoaBytes rest

/-- `btoa`: fails on code units above 255, else base64-encodes. -/
def btoa (l : List Nat) : Option (List Nat) :=
  if l.all (fun b => b < 256) then some (btoaBytes l) else none

/-- `atob`: base64 decoding of a character-code list. -/
def atobBytes : List Nat → Option (List Nat)
  | [] => some []
  | c1 :: c2 :: c3 :: c4 :: rest => do
      let v1 ← b64Val c1
      let v2 ← b64Val c2
      if c3 = 61 ∧ c4 = 61 ∧ rest = [] then
        some [v1 * 4 + v2 / 16]
      else if c4 = 61 ∧ rest = [] then do
        let v3 ← b64Val c3
        some [v1 * 4 + v2 / 16, v2 % 16 * 16 + v3 / 4]
      else do
        let v3 ← b64Val c3
        let v4 ← b64Val c4
        let r ← atobBytes rest
        some ((v1 * 4 + v2 / 16) :: (v2 % 16 * 16 + v3 / 4) :: (v3 % 4 * 64 + v4) :: r)
  | _ => none

/-! ## Ideal key derivation

All four key-derivation call sites wrap a library PBKDF2
(`crypto.pbkdf2Sync`, `crypto.subtle.deriveKey`, `CryptoJS.PBKDF2`), an
external deterministic primitive.  A `DerivedKey` records exactly the
arguments passed to the library. -/

structure DerivedKey where
  material : List Nat
  salt : List Nat
  iterations : Nat
  keyLen : Nat
  hash : String
deriving DecidableEq

/-- `crypto.pbkdf2Sync(password, salt, iterations, keyLen, digest)`:
ideal model, recording the arguments; the library output has `keyLen`
bytes. -/
def pbkdf2Sync (password salt : List Nat) (iterations keyLen : Nat)
    (digest : String) : DerivedKey :=
  { material := password, salt := salt, iterations := iterations,
    keyLen := keyLen, hash := digest }

/-- Number of bytes of the key a PBKDF2 library call returns. -/
def DerivedKey.byteLength (k : DerivedKey) : Nat := k.keyLen

/-! ## AES-256-GCM model

The GCM keystream is an explicit parameter
`ks : DerivedKey → List Nat → Nat → List Nat` (key, nonce and requested
length); the 16-byte authentication tag is modelled ideally as the triple it
authenticates. -/

structure GcmTag where
  key : DerivedKey
  iv : List Nat
  ct : List Nat
deriving DecidableEq

/-- Return value of `EncryptionService.encrypt` / `SecurityService.encrypt`:
hex-encoded ciphertext, salt and iv, plus the authentication tag. -/
structure GcmEnvelope where
  encrypted : List Nat
  salt : List Nat
  iv : List Nat
  authTag : GcmTag
deriving DecidableEq

namespace EncryptionService

/-- `EncryptionService.keyLength`. -/
def keyLength : Nat := 32

/-- `EncryptionService.saltLength`. -/
def saltLength : Nat := 16

/-- `EncryptionService.ivLength`. -/
def ivLength : Nat := 12

/-- `EncryptionService.tagLength`. -/
def tagLength : Nat := 16

/-- `EncryptionService.deriveKey`: PBKDF2-SHA256 with the inline iteration
count 100000 and `keyLength` = 32. -/
def deriveKey (masterPassword : String) (salt : List Nat) : DerivedKey :=
  pbkdf2Sync (utf8Encode masterPassword) salt 100000 keyLength "sha256"

/-- `EncryptionService.encrypt`: the fresh 16-byte salt and 12-byte iv that
`crypto.randomBytes` returns are the arguments `saltBytes`, `ivBytes`. -/
def encrypt (ks : DerivedKey → List Nat → Nat → List Nat)
    (data masterPassword : String) (saltBytes ivBytes : List Nat) : GcmEnvelope :=
  let key := deriveKey masterPassword saltBytes
  let pt := utf8Encode data
  let ct := zipXor pt (ks key ivBytes pt.length)
  { encrypted := hexEncode ct, salt := hexEncode saltBytes,
    iv := hexEncode ivBytes, authTag := { key := key, iv := ivBytes, ct := ct } }

/-- `EncryptionService.decrypt`: hex-decodes the fields, checks the
salt/iv/tag lengths (the ideal tag is the 16-byte GCM tag by construction),
re-derives the key and runs GCM.  Authentication failure throws, caught and
rethrown as an error: `none`. -/
def decrypt (ks : DerivedKey → List Nat → Nat → List Nat)
    (encryptedData : List Nat) (masterPassword : String)
    (salt iv : List Nat) (authTag : GcmTag) : Option (List Nat) :=
  match hexDecode salt, hexDecode iv, hexDecode encryptedData with
  | some saltBuffer, some ivBuffer, some ctBuffer =>
      if saltBuffer.length = saltLength ∧ ivBuffer.length = ivLength then
        let key := deriveKey masterPassword saltBuffer
        if authTag = { key := key, iv := ivBuffer, ct := ctBuffer } then
          some (zipXor ctBuffer (ks key ivBuffer ctBuffer.length))
        else none
      else none
  | _, _, _ => none

end EncryptionService

namespace SecurityService

/-- `SecurityService.ITERATIONS`, the named iteration-count constant. -/
def ITERATIONS : Nat := 100000

/-- `SecurityService.KEY_LENGTH`. -/
def KEY_LENGTH : Nat := 32

/-- `SecurityService.deriveKey`: PBKDF2-SHA256 with `ITERATIONS` and
`KEY_LENGTH`. -/
def deriveKey (masterPassword : String) (salt : List Nat) : DerivedKey :=
  pbkdf2Sync (utf8Encode masterPassword) salt ITERATIONS KEY_LENGTH "sha256"

/-- `SecurityService.encrypt`. -/
def encrypt (ks : DerivedKey → List Nat → Nat → List Nat)
    (data masterPassword : String) (saltBytes ivBytes : List Nat) : GcmEnvelope :=
  let key := deriveKey masterPassword saltBytes
  let pt := utf8Encode data
  let ct := zipXor pt (ks key ivBytes pt.length)
  { encrypted := hexEncode ct, salt := hexEncode saltBytes,
    iv := hexEncode ivBytes, authTag := { key := key, iv := ivBytes, ct := ct } }

/-- `SecurityService.decrypt`: no length checks, no catch; a GCM
authentication failure propagates to the caller: `none`. -/
def decrypt (ks : DerivedKey → List Nat → Nat → List Nat)
    (encryptedData : List Nat) (masterPassword : String)
    (salt iv : List Nat) (authTag : GcmTag) : Option (List Nat) :=
  match hexDecode salt, hexDecode iv, hexDecode encryptedData with
  | some saltBuffer, some ivBuffer, some ctBuffer =>
      let key := deriveKey masterPassword saltBuffer
      if authTag = { key := key, iv := ivBuffer, ct := ctBuffer } then
        some (zipXor ctBuffer (ks key ivBuffer ctBuffer.length))
      else none
  | _, _, _ => none

end SecurityService

/-- The PBKDF2 call of `SecureClientEncryption.deriveKey` and
`SecureClientDecryption.deriveKey` (Web Crypto): 100000 iterations,
SHA-256, AES-GCM 256-bit key. -/
def webCryptoDeriveKey (password salt : List Nat) : DerivedKey :=
  pbkdf2Sync password salt 100000 32 "SHA-256"

/-! ## AES-256-CBC model (`SimpleEncryptionService`)

The AES block permutation under the derived key is the explicit parameter
`D : DerivedKey → List Nat → List Nat` (the inverse cipher applied to one
16-byte block).  CBC decryption XORs each decrypted block with the previous
ciphertext block (the iv for the first), then strips and validates PKCS7
padding; `decipher.final` throws on invalid padding: `none`. -/

/-- Split a byte list into 16-byte blocks (structural recursion on a fuel
bound by the length, so that it reduces computationally). -/
def toBlocksAux : Nat → List Nat → List (List Nat)
  | 0, _ => []
  | _, [] => []
  | fuel + 1, l => l.take 16 :: toBlocksAux fuel (l.drop 16)

/-- Split a byte list into 16-byte blocks. -/
def toBlocks (l : List Nat) : List (List Nat) := toBlocksAux l.length l

/-- CBC block-decryption chain: plaintext block `i` is
`D(ct block i) XOR (previous ct block)`. -/
def cbcDecRun (D : List Nat → List Nat) : List Nat → List (List Nat) → List Nat
  | _, [] => []
  | prev, b :: bs => zipXor (D b) prev ++ cbcDecRun D b bs

/-- PKCS7 unpadding with full validation, as `decipher.final` performs. -/
def pkcs7Unpad (p : List Nat) : Option (List Nat) :=
  match p.getLast? with
  | none => none
  | some k =>
      if 1 ≤ k ∧ k ≤ 16 ∧ k ≤ p.length ∧ (p.drop (p.length - k)).all (fun x => x = k)
      then some (p.take (p.length - k)) else none

namespace SimpleEncryptionService

/-- `SimpleEncryptionService.deriveKey`: PBKDF2-SHA256, 100000 iterations,
32-byte key. -/
def deriveKey (masterPassword : String) (salt : List Nat) : DerivedKey :=
  pbkdf2Sync (utf8Encode masterPassword) salt 100000 32 "sha256"

/-- `SimpleEncryptionService.decrypt`: aes-256-cbc decryption of
hex-encoded inputs.  `createDecipheriv` requires a 16-byte iv and
`decipher.update/final` a nonempty ciphertext of whole blocks; there is no
authentication of any kind. -/
def decrypt (D : DerivedKey → List Nat → List Nat)
    (encryptedData : List Nat) (masterPassword : String)
    (salt iv : List Nat) : Option (List Nat) :=
  match hexDecode salt, hexDecode iv, hexDecode encryptedData with
  | some saltBuffer, some ivBuffer, some ctBuffer =>
      if ivBuffer.length = 16 ∧ ctBuffer ≠ [] ∧ ctBuffer.length % 16 = 0 then
        pkcs7Unpad (cbcDecRun (D (deriveKey masterPassword saltBuffer))
          ivBuffer (toBlocks ctBuffer))
      else none
  | _, _, _ => none

end SimpleEncryptionService

/-! ## Web Crypto client pair

`SecureClientEncryption.encrypt` (dashboard) produces
`btoa(salt ++ iv ++ subtle.encrypt output)`, where `crypto.subtle.encrypt`
with AES-GCM returns `ciphertext ++ tag16`; that AEAD output is the
parameter `ctTag` (respectively the slice consumed by the parameter
`subtleDecrypt` on decryption).  All inputs are `Uint8Array` bytes, so the
`btoa` code-unit limit cannot fire. -/

namespace SecureClientEncryption

/-- The `combined` array: `salt ++ iv ++ encryptedBuffer`. -/
def combined (salt iv ctTag : List Nat) : List Nat := salt ++ iv ++ ctTag

/-- The `encrypted` field returned by `SecureClientEncryption.encrypt`:
`btoa(String.fromCharCode(...combined))`. -/
def encryptBlob (salt iv ctTag : List Nat) : List Nat :=
  btoaBytes (combined salt iv ctTag)

end SecureClientEncryption

namespace SecureClientDecryption

/-- The fixed-offset slicing of `SecureClientDecryption.decrypt`:
salt = bytes 0..16, iv = bytes 16..28, AEAD input = bytes 28... -/
def sliceCombined (c : List Nat) : List Nat × List Nat × List Nat :=
  (c.take 16, (c.drop 16).take 12, c.drop 28)

/-- `SecureClientDecryption.decrypt`: `atob`, slice, derive key, AEAD
decrypt; every failure is caught and rethrown as a `DecryptionError`:
`none`. -/
def decrypt (subtleDecrypt : DerivedKey → List Nat → List Nat → Option (List Nat))
    (encryptedData password : List Nat) : Option (List Nat) :=
  match atobBytes encryptedData with
  | none => none
  | some c =>
      subtleDecrypt (webCryptoDeriveKey password (c.take 16))
        ((c.drop 16).take 12) (c.drop 28)

end SecureClientDecryption

namespace SimpleClientDecryption

/-- `SimpleClientDecryption.decrypt` (`VaultList.tsx`): base64-decode and
XOR against the repeating key; it never fails, and returns the literal
string below if `atob` throws. -/
def decrypt (encryptedData key : List Nat) : List Nat :=
  match atobBytes encryptedData with
  | some decoded => xorWithKey key 0 decoded
  | none => jsStr "*** Decryption Failed ***"

end SimpleClientDecryption

/-- `decryptPassword` (`VaultList.tsx`): try
`SecureClientDecryption.decrypt`; on any failure fall back to
`SimpleClientDecryption.decrypt`, whose result is returned as the
password. -/
def decryptPassword
    (subtleDecrypt : DerivedKey → List Nat → List Nat → Option (List Nat))
    (encryptedPassword masterKey : List Nat) : List Nat :=
  match SecureClientDecryption.decrypt subtleDecrypt encryptedPassword masterKey with
  | some password => password
  | none => SimpleClientDecryption.decrypt encryptedPassword masterKey

/-- Return value of `SimpleClientEncryption.encrypt`; `encrypted` is `none`
when `btoa` throws on a code unit above 255. -/
structure SimpleEnvelope where
  encrypted : Option (List Nat)
  salt : List Nat
  iv : List Nat
deriving DecidableEq

namespace SimpleClientEncryption

/-- `SimpleClientEncryption.encrypt` (dashboard): XOR the data against the
repeating key and base64 it; the salt and iv are the constant prefixes
`default-salt-` / `default-iv-` followed by `Math.random().toString(36).substring(2)`,
passed here as `rand1`, `rand2`. -/
def encrypt (data key rand1 rand2 : List Nat) : SimpleEnvelope :=
  { encrypted := btoa (xorWithKey key 0 data),
    salt := jsStr "default-salt-" ++ rand1,
    iv := jsStr "default-iv-" ++ rand2 }

/-- `SimpleClientEncryption.decrypt` (dashboard): identical XOR loop; the
`salt` and `iv` parameters are accepted but never read. -/
def decrypt (encryptedData key salt iv : List Nat) : List Nat :=
  match atobBytes encryptedData with
  | some decoded => xorWithKey key 0 decoded
  | none => jsStr "*** Decryption Failed ***"

end SimpleClientEncryption

/-- The `JSON.stringify({e, s, i, t})` byte string built by
`EncryptionService.encryptForStorage`; the byte literals spell, in order:
open-brace quote e quote colon quote, quote comma quote s quote colon quote,
quote comma quote i quote colon quote, quote comma quote t quote colon
quote, quote close-brace.  The four values are hex strings, so no JSON
escaping arises. -/
def storagePackage (e s i t : List Nat) : List Nat :=
  [123, 34, 101, 34, 58, 34] ++ e ++ [34, 44, 34, 115, 34, 58, 34] ++ s ++
  [34, 44, 34, 105, 34, 58, 34] ++ i ++ [34, 44, 34, 116, 34, 58, 34] ++ t ++
  [34, 125]

namespace EncryptionService

/-- `EncryptionService.encryptForStorage`: encrypt, then base64 the
JSON package of the four hex fields.  `tagHex` is the hex encoding of the
16 tag bytes the library returns (the tag being ideal in this model). -/
def encryptForStorage (ks : DerivedKey → List Nat → Nat → List Nat)
    (data masterPassword : String) (saltBytes ivBytes tagHex : List Nat) :
    List Nat :=
  let env := encrypt ks data masterPassword saltBytes ivBytes
  btoaBytes (storagePackage env.encrypted env.salt env.iv tagHex)

end EncryptionService

/-! ## Password strength estimators

`calculateStrength` (`AdvancedPasswordGenerator.tsx`, score 0..10 with
feedback) and `ClientEncryption.calculatePasswordStrength`
(`src/lib/security.ts`, score 0..100).  The JavaScript comparison
`password.length * Math.log2(charSetSize) > T` is modelled exactly as
`charSetSize ^ length > 2 ^ T`: log2 is strictly monotone, so the two
agree over the reals, and for every reachable `charSetSize`
(a subset sum of 26, 26, 10, 32) either `log2` is exact (32) or the
product is separated from the integer thresholds 40/60/80/100 by far more
than double-precision rounding error.  String lengths count characters;
JavaScript counts UTF-16 units, which differs only for astral-plane
characters (counted twice there); the boundary inputs of the claims lie in
the basic plane. -/

/-- Score/feedback pair returned by `calculateStrength`. -/
structure PasswordStrength where
  score : Int
  feedback : List String
deriving DecidableEq

/-- `/[a-z]/.test`. -/
def isLowerAlpha (c : Char) : Bool := 97 ≤ c.toNat && c.toNat ≤ 122

/-- `/[A-Z]/.test`. -/
def isUpperAlpha (c : Char) : Bool := 65 ≤ c.toNat && c.toNat ≤ 90

/-- `/[0-9]/.test`. -/
def isDigitCh (c : Char) : Bool := 48 ≤ c.toNat && c.toNat ≤ 57

/-- `/[^a-zA-Z0-9]/.test`. -/
def isSymbolCh (c : Char) : Bool := !(isLowerAlpha c || isUpperAlpha c || isDigitCh c)

/-- Lowercasing used to model the `/i` regex flag on ASCII patterns. -/
def lowerChar (c : Char) : Char :=
  if 65 ≤ c.toNat ∧ c.toNat ≤ 90 then Char.ofNat (c.toNat + 32) else c

/-- Does the pattern match at the head of the list? -/
def leadMatch : List Char → List Char → Bool
  | [], _ => true
  | _ :: _, [] => false
  | a :: ps, b :: ss => a == b && leadMatch ps ss

/-- Does the pattern occur anywhere in the list (substring regex test)? -/
def containsPat : List Char → List Char → Bool
  | pat, [] => leadMatch pat []
  | pat, b :: rest => leadMatch pat (b :: rest) || containsPat pat rest

/-- `charSetSize` as computed in both estimators. -/
def charSetSize (s : List Char) : Nat :=
  (if s.any isLowerAlpha then 26 else 0) + (if s.any isUpperAlpha then 26 else 0) +
  (if s.any isDigitCh then 10 else 0) + (if s.any isSymbolCh then 32 else 0)

/-- Exact model of `length * Math.log2(charSetSize) > T` (see the section
comment). -/
def entropyExceeds (cs len t : Nat) : Bool := 2 ^ t < cs ^ len

/-- The common-pattern denylist:
`123456`, `/password/i`, `/qwerty/i`, `abc123`, `111111`, `000000`. -/
def hasCommonPattern (s : List Char) : Bool :=
  let ls := s.map lowerChar
  containsPat "123456".data s || containsPat "password".data ls ||
  containsPat "qwerty".data ls || containsPat "abc123".data s ||
  containsPat "111111".data s || containsPat "000000".data s

/-- The 24 ascending three-letter runs `abc` .. `xyz`. -/
def alphaTriples : List (List Char) :=
  (List.range 24).map fun i =>
    [Char.ofNat (97 + i), Char.ofNat (98 + i), Char.ofNat (99 + i)]

/-- The 8 ascending three-digit runs `012` .. `789`. -/
def digitTriples : List (List Char) :=
  (List.range 8).map fun i =>
    [Char.ofNat (48 + i), Char.ofNat (49 + i), Char.ofNat (50 + i)]

/-- The sequential-characters check (letters case-insensitively, digits
case-sensitively, matching the two regexes). -/
def hasSequentialChars (s : List Char) : Bool :=
  (alphaTriples.any fun t => containsPat t (s.map lowerChar)) ||
  (digitTriples.any fun t => containsPat t s)

/-- The four line terminators that the regex dot never matches. -/
def isLineTerminator (c : Char) : Bool :=
  c.toNat = 10 || c.toNat = 13 || c.toNat = 8232 || c.toNat = 8233

/-- `/(.)\1{2,}/.test`: three or more equal consecutive characters (the dot
does not match line terminators). -/
def hasTripleRepeat : List Char → Bool
  | a :: b :: c :: rest =>
      (a == b && b == c && !isLineTerminator a) || hasTripleRepeat (b :: c :: rest)
  | _ => false

/-- `if b then 1 else 0` on `Int`. -/
def b2i (b : Bool) : Int := if b then 1 else 0

/-- Length tier of `calculateStrength`. -/
def lengthScore (n : Nat) : Int :=
  if n < 8 then 0 else if n < 12 then 1 else if n < 16 then 2 else 3

/-- Character-variety count of `calculateStrength` (0..4). -/
def varietyScore (s : List Char) : Int :=
  b2i (s.any isLowerAlpha) + b2i (s.any isUpperAlpha) +
  b2i (s.any isDigitCh) + b2i (s.any isSymbolCh)

/-- Entropy bonus of `calculateStrength` (0..3). -/
def entropyBonus (s : List Char) : Int :=
  if charSetSize s = 0 then 0
  else if entropyExceeds (charSetSize s) s.length 100 then 3
  else if entropyExceeds (charSetSize s) s.length 80 then 2
  else if entropyExceeds (charSetSize s) s.length 60 then 1
  else 0

/-- `calculateStrength` (`AdvancedPasswordGenerator.tsx`): length tier,
variety, entropy bonus, then the three penalty deductions clamped at 0 via
`Math.max`, capped at 10 via `Math.min`; feedback in source order, replaced
by the congratulatory message when empty. -/
def calculateStrength (pwd : String) : PasswordStrength :=
  let s := pwd.data
  let score2 := lengthScore s.length + varietyScore s + entropyBonus s
  let score3 := if hasCommonPattern s then max 0 (score2 - 2) else score2
  let score4 := if hasSequentialChars s then max 0 (score3 - 1) else score3
  let score5 := if hasTripleRepeat s then max 0 (score4 - 1) else score4
  let fb :=
    (if s.length < 8 then ["Password should be at least 8 characters long"] else []) ++
    (if varietyScore s < 3 then
      ["Add more character types (uppercase, lowercase, numbers, symbols)"] else []) ++
    (if hasCommonPattern s then ["Avoid common patterns and sequences"] else []) ++
    (if hasSequentialChars s then ["Avoid sequential characters"] else []) ++
    (if hasTripleRepeat s then ["Avoid repeated characters"] else [])
  { score := min score5 10,
    feedback := if fb = [] then ["Strong password!"] else fb }

namespace ClientEncryption

/-- `ClientEncryption.calculatePasswordStrength` (`src/lib/security.ts`):
length points, 10 per character class, entropy bonus, capped at 100 via
`Math.min`. -/
def calculatePasswordStrength (password : String) : Int :=
  let s := password.data
  let lenScore : Int := (if 8 ≤ s.length then 25 else 0) +
    (if 12 ≤ s.length then 15 else 0) + (if 16 ≤ s.length then 10 else 0)
  let charScore : Int := (if s.any isLowerAlpha then 10 else 0) +
    (if s.any isUpperAlpha then 10 else 0) + (if s.any isDigitCh then 10 else 0) +
    (if s.any isSymbolCh then 10 else 0)
  let entScore : Int :=
    if charSetSize s = 0 then 0
    else if entropyExceeds (charSetSize s) s.length 100 then 20
    else if entropyExceeds (charSetSize s) s.length 80 then 15
    else if entropyExceeds (charSetSize s) s.length 60 then 10
    else if entropyExceeds (charSetSize s) s.length 40 then 5
    else 0
  min (lenScore + charScore + entScore) 100

end ClientEncryption

/-!
# Theorems
-/

theorem char_toNat_lt (c : Char) : c.toNat < 1114112 := by
  rcases c.valid with h | h
  · exact Nat.lt_trans h (by norm_num)
  · exact h.2

theorem utf8EncodeChar_lt (c : Char) : ∀ b ∈ utf8EncodeChar c, b < 256 := by
  intro b hb
  have hval : c.toNat < 1114112 := char_toNat_lt c
  unfold utf8EncodeChar at hb
  split at hb
  · simp only [List.mem_singleton] at hb; omega
  · split at hb
    · simp only [List.mem_cons, List.mem_singleton, List.not_mem_nil, or_false] at hb
      rcases hb with h | h <;> omega
    · split at hb
      · simp only [List.mem_cons, List.mem_singleton, List.not_mem_nil, or_false] at hb
        rcases hb with h | h | h <;> omega
      · simp only [List.mem_cons, List.mem_singleton, List.not_mem_nil, or_false] at hb
        rcases hb with h | h | h | h <;> omega

theorem utf8Encode_lt (s : String) : ∀ b ∈ utf8Encode s, b < 256 := by
  intro b hb
  unfold utf8Encode at hb
  rw [List.mem_flatten] at hb
  obtain ⟨l, hl, hbl⟩ := hb
  rw [List.mem_map] at hl
  obtain ⟨c, _, rfl⟩ := hl
  exact utf8EncodeChar_lt c b hbl

theorem zipXor_length (a b : List Nat) :
    (zipXor a b).length = min a.length b.length := by
  simp [zipXor]

theorem zipXor_zipXor (a b : List Nat) (h : a.length ≤ b.length) :
    zipXor (zipXor a b) b = a := by
  induction a generalizing b with
  | nil => simp [zipXor]
  | cons x xs ih =>
    cases b with
    | nil => simp at h
    | cons y ys =>
      simp only [zipXor, List.zipWith_cons_cons]
      simp only [List.length_cons, Nat.succ_le_succ_iff] at h
      rw [Nat.xor_cancel_right]
      exact congrArg (x :: ·) (ih ys h)

theorem xor_lt_256 {a b : Nat} (ha : a < 256) (hb : b < 256) : a ^^^ b < 256 := by
  have h : a ^^^ b < 2 ^ 8 := Nat.xor_lt_two_pow (by omega) (by omega)
  omega

theorem hexVal_hexDigit : ∀ n, n < 16 → hexVal (hexDigit n) = some n := by decide

theorem hexDecode_hexEncode (l : List Nat) (h : ∀ b ∈ l, b < 256) :
    hexDecode (hexEncode l) = some l := by
  induction l with
  | nil => rfl
  | cons b bs ih =>
    have hb : b < 256 := h b (List.mem_cons_self b bs)
    have hrest := ih (fun x hx => h x (List.mem_cons_of_mem b hx))
    have h1 : b / 16 < 16 := by omega
    have h2 : b % 16 < 16 := by omega
    simp only [hexEncode, hexDecode, hexVal_hexDigit _ h1, hexVal_hexDigit _ h2,
      hrest, Option.bind_eq_bind, Option.some_bind]
    have : b / 16 * 16 + b % 16 = b := by omega
    rw [this]

theorem b64Val_b64Char : ∀ n, n < 64 → b64Val (b64Char n) = some n := by decide

theorem b64Char_ne_61 : ∀ n, n < 64 → b64Char n ≠ 61 := by decide

theorem atobBytes_btoaBytes (l : List Nat) (h : ∀ b ∈ l, b < 256) :
    atobBytes (btoaBytes l) = some l := by
  induction l using btoaBytes.induct with
  | case1 => rfl
  | case2 a =>
    have ha : a < 256 := h a (by simp)
    have h1 : a / 4 < 64 := by omega
    have h2 : a % 4 * 16 < 64 := by omega
    simp only [btoaBytes, atobBytes, b64Val_b64Char _ h1, b64Val_b64Char _ h2,
      Option.bind_eq_bind, Option.some_bind]
    rw [if_pos (by simp)]
    have e : a / 4 * 4 + a % 4 * 16 / 16 = a := by omega
    rw [e]
  | case3 a b =>
    have ha : a < 256 := h a (by simp)
    have hb : b < 256 := h b (by simp)
    have h1 : a / 4 < 64 := by omega
    have h2 : a % 4 * 16 + b / 16 < 64 := by omega
    have h3 : b % 16 * 4 < 64 := by omega
    simp only [btoaBytes, atobBytes, b64Val_b64Char _ h1, b64Val_b64Char _ h2,
      b64Val_b64Char _ h3, Option.bind_eq_bind, Option.some_bind]
    rw [if_neg (by simp [b64Char_ne_61 _ h3]), if_pos (by simp)]
    have e1 : a / 4 * 4 + (a % 4 * 16 + b / 16) / 16 = a := by omega
    have e2 : (a % 4 * 16 + b / 16) % 16 * 16 + b % 16 * 4 / 4 = b := by omega
    rw [e1, e2]
  | case4 a b c rest ih =>
    have ha : a < 256 := h a (by simp)
    have hb : b < 256 := h b (by simp)
    have hc : c < 256 := h c (by simp)
    have hrest := ih (fun x hx => h x (by simp [hx]))
    have h1 : a / 4 < 64 := by omega
    have h2 : a % 4 * 16 + b / 16 < 64 := by omega
    have h3 : b % 16 * 4 + c / 64 < 64 := by omega
    have h4 : c % 64 < 64 := by omega
    simp only [btoaBytes, atobBytes, b64Val_b64Char _ h1, b64Val_b64Char _ h2,
      b64Val_b64Char _ h3, b64Val_b64Char _ h4, hrest,
      Option.bind_eq_bind, Option.some_bind]
    rw [if_neg (by simp [b64Char_ne_61 _ h3]), if_neg (by simp [b64Char_ne_61 _ h4])]
    have e1 : a / 4 * 4 + (a % 4 * 16 + b / 16) / 16 = a := by omega
    have e2 : (a % 4 * 16 + b / 16) % 16 * 16 + (b % 16 * 4 + c / 64) / 4 = b := by omega
    have e3 : (b % 16 * 4 + c / 64) % 4 * 64 + c % 64 = c := by omega
    rw [e1, e2, e3]

theorem zipXor_lt (a b : List Nat) (ha : ∀ x ∈ a, x < 256) (hb : ∀ x ∈ b, x < 256) :
    ∀ x ∈ zipXor a b, x < 256 := by
  induction a generalizing b with
  | nil => simp [zipXor]
  | cons y ys ih =>
    cases b with
    | nil => simp [zipXor]
    | cons z zs =>
      intro x hx
      simp only [zipXor, List.zipWith_cons_cons, List.mem_cons] at hx
      rcases hx with rfl | hx
      · exact xor_lt_256 (ha y (by simp)) (hb z (by simp))
      · exact ih zs (fun w hw => ha w (by simp [hw]))
          (fun w hw => hb w (by simp [hw])) x hx

theorem getD_lt_256 (key : List Nat) (j : Nat) (h : ∀ c ∈ key, c < 256) :
    key.getD j 0 < 256 := by
  by_cases hj : j < key.length
  · rw [List.getD_eq_getElem key 0 hj]
    exact h _ (List.getElem_mem hj)
  · rw [List.getD_eq_default key 0 (by omega)]
    omega

theorem xorWithKey_lt (key : List Nat) (hkey : ∀ c ∈ key, c < 256) :
    ∀ i data, (∀ c ∈ data, c < 256) → ∀ b ∈ xorWithKey key i data, b < 256 := by
  intro i data
  induction data generalizing i with
  | nil => simp [xorWithKey]
  | cons d ds ih =>
    intro hd b hb
    simp only [xorWithKey, List.mem_cons] at hb
    rcases hb with rfl | hb
    · exact xor_lt_256 (hd d (by simp)) (getD_lt_256 key _ hkey)
    · exact ih (i + 1) (fun c hc => hd c (by simp [hc])) b hb

theorem xorWithKey_xorWithKey (key : List Nat) (i : Nat) (data : List Nat) :
    xorWithKey key i (xorWithKey key i data) = data := by
  induction data generalizing i with
  | nil => rfl
  | cons d ds ih =>
    simp only [xorWithKey, Nat.xor_cancel_right]
    exact congrArg (d :: ·) (ih (i + 1))

/-- C2: the claim requires every wrong-key decryption to fail with a
`DecryptionError` and never to return garbage, but the XOR fallback
`SimpleClientDecryption.decrypt` cited by the claim is total: decrypting an
envelope of `hunter2` made under the key `correct-horse-battery-staple`
with the wrong key `wrong-secret` silently returns the garbage character
codes `[124, 104, 115, 104, 103, 60, 53]` — neither a failure nor the
plaintext nor even the internal failure-marker string. -/
theorem simpleClientDecryption_wrong_key_returns_garbage :
    (SimpleClientEncryption.encrypt (jsStr "hunter2")
        (jsStr "correct-horse-battery-staple") [] []).encrypted
      = some (btoaBytes (xorWithKey (jsStr "correct-horse-battery-staple") 0
          (jsStr "hunter2"))) ∧
    SimpleClientDecryption.decrypt
        (btoaBytes (xorWithKey (jsStr "correct-horse-battery-staple") 0
          (jsStr "hunter2")))
        (jsStr "wrong-secret") = [124, 104, 115, 104, 103, 60, 53] ∧
    [124, 104, 115, 104, 103, 60, 53] ≠ jsStr "hunter2" ∧
    [124, 104, 115, 104, 103, 60, 53] ≠ jsStr "*** Decryption Failed ***" := by
  decide

/-- C3: tamper detection fails on the unauthenticated aes-256-cbc path
`SimpleEncryptionService.decrypt` cited by the claim.  For the two-block
ciphertext `41..41 51..51` (hex) with the all-zero iv, decryption (under any
AES block permutation, instantiated here with the identity) succeeds and
yields the sixteen bytes 65; flipping the lowest bit of the first iv byte
(iv byte 0: 0 becomes 1) still succeeds and returns plaintext altered in
exactly that bit (first byte 64), instead of failing with a
`DecryptionError`. -/
theorem simpleEncryptionService_iv_bitflip_alters_plaintext :
    hexDecode (hexEncode (List.replicate 16 0)) = some (List.replicate 16 0) ∧
    hexDecode (hexEncode (1 :: List.replicate 15 0))
      = some (1 :: List.replicate 15 0) ∧
    SimpleEncryptionService.decrypt (fun _ b => b)
        (hexEncode (List.replicate 16 65 ++ List.replicate 16 81)) "master"
        (hexEncode (List.replicate 16 9)) (hexEncode (List.replicate 16 0))
      = some (List.replicate 16 65) ∧
    SimpleEncryptionService.decrypt (fun _ b => b)
        (hexEncode (List.replicate 16 65 ++ List.replicate 16 81)) "master"
        (hexEncode (List.replicate 16 9)) (hexEncode (1 :: List.replicate 15 0))
      = some (64 :: List.replicate 15 65) ∧
    (64 :: List.replicate 15 65) ≠ List.replicate 16 65 := by
  decide

/-- C4: `SimpleClientEncryption.encrypt` draws its salt and iv from
`Math.random` (the `rand1`/`rand2` suffixes), not from a cryptographically
secure source, and its salt is the constant 13-character text
`default-salt-` followed by that suffix rather than 16 random bytes;
moreover the ciphertext ignores the randomness entirely, so two encryptions
of the same plaintext under the same key always produce identical
ciphertexts. -/
theorem simpleClientEncryption_repeats_ciphertext
    (data key rand1 rand2 rand1' rand2' : List Nat) :
    (SimpleClientEncryption.encrypt data key rand1 rand2).encrypted
      = (SimpleClientEncryption.encrypt data key rand1' rand2').encrypted ∧
    (SimpleClientEncryption.encrypt data key rand1 rand2).salt.take 13
      = jsStr "default-salt-" ∧
    (SimpleClientEncryption.encrypt data key rand1 rand2).iv.take 11
      = jsStr "default-iv-" := by
  refine ⟨rfl, ?_, ?_⟩
  · show (jsStr "default-salt-" ++ rand1).take 13 = jsStr "default-salt-"
    rw [show (13 : Nat) = (jsStr "default-salt-").length from rfl]
    exact List.take_left _ _
  · show (jsStr "default-iv-" ++ rand2).take 11 = jsStr "default-iv-"
    rw [show (11 : Nat) = (jsStr "default-iv-").length from rfl]
    exact List.take_left _ _

/-- C5: when the primary authenticated decryption fails (the
`subtleDecrypt` parameter returns a failure, as it does under a wrong
master key or tampered data), `decryptPassword` does not surface a typed
error: it silently retries with the XOR fallback and returns whatever that
produces.  Concretely, for an XOR envelope of `secret-note` under key `k1`,
a failing primary path plus master key `k2` yields a garbage character
string, not an error and not the failure marker. -/
theorem decryptPassword_swallows_failure_into_xor_fallback :
    (∀ blob key, decryptPassword (fun _ _ _ => none) blob key
        = SimpleClientDecryption.decrypt blob key) ∧
    decryptPassword (fun _ _ _ => none)
        (btoaBytes (xorWithKey (jsStr "k1") 0 (jsStr "secret-note")))
        (jsStr "k2")
      = xorWithKey (jsStr "k2") 0 (xorWithKey (jsStr "k1") 0 (jsStr "secret-note")) ∧
    xorWithKey (jsStr "k2") 0 (xorWithKey (jsStr "k1") 0 (jsStr "secret-note"))
      ≠ jsStr "secret-note" ∧
    xorWithKey (jsStr "k2") 0 (xorWithKey (jsStr "k1") 0 (jsStr "secret-note"))
      ≠ jsStr "*** Decryption Failed ***" := by
  refine ⟨?_, by decide, by decide, by decide⟩
  intro blob key
  unfold decryptPassword SecureClientDecryption.decrypt
  cases atobBytes blob <;> rfl

/-- C6: every key-derivation call site is the pure PBKDF2-HMAC-SHA256 ideal
call with iteration count 100000 (at least 100,000) and a 32-byte output;
the call sites agree on the constant, and identical inputs yield identical
derived keys. -/
theorem deriveKey_pbkdf2_sha256_100000_32 (m : String) (s pw : List Nat) :
    EncryptionService.deriveKey m s = pbkdf2Sync (utf8Encode m) s 100000 32 "sha256" ∧
    SecurityService.deriveKey m s = EncryptionService.deriveKey m s ∧
    SimpleEncryptionService.deriveKey m s = EncryptionService.deriveKey m s ∧
    (EncryptionService.deriveKey m s).iterations = 100000 ∧
    100000 ≤ (SecurityService.deriveKey m s).iterations ∧
    (EncryptionService.deriveKey m s).byteLength = 32 ∧
    (EncryptionService.deriveKey m s).hash = "sha256" ∧
    (webCryptoDeriveKey pw s).iterations = 100000 ∧
    (webCryptoDeriveKey pw s).byteLength = 32 ∧
    EncryptionService.deriveKey m s = EncryptionService.deriveKey m s :=
  ⟨rfl, rfl, rfl, rfl, le_refl _, rfl, rfl, rfl, rfl, rfl⟩

/-- C8: boundary behavior of the strength estimators: the empty string
scores 0 with non-empty feedback; `Tr0ub4dor&3xtra-long-phrase!` reaches
the top band (10 of 10, and 100 of 100); `password` scores 0 (and 35 of
100) with feedback flagging a common pattern.  Both estimators are total
pure functions by construction. -/
theorem strength_estimator_boundaries :
    (calculateStrength "").score = 0 ∧
    (calculateStrength "").feedback ≠ [] ∧
    (calculateStrength "Tr0ub4dor&3xtra-long-phrase!").score = 10 ∧
    (calculateStrength "password").score = 0 ∧
    "Avoid common patterns and sequences" ∈ (calculateStrength "password").feedback ∧
    ClientEncryption.calculatePasswordStrength "" = 0 ∧
    ClientEncryption.calculatePasswordStrength "Tr0ub4dor&3xtra-long-phrase!" = 100 ∧
    ClientEncryption.calculatePasswordStrength "password" = 35 := by
  refine ⟨rfl, by decide, by decide, by decide, by decide, rfl, by decide, by decide⟩

/-- C1: round trip of `EncryptionService`.  For every plaintext string
(empty and multi-byte Unicode included), every master secret, every
16-byte salt and 12-byte nonce, and every AES-GCM keystream function that
returns the requested number of bytes, decrypting the envelope produced by
`encrypt` with the same master secret succeeds and returns the original
UTF-8 plaintext byte-for-byte. -/
theorem encryptionService_decrypt_encrypt_roundtrip
    (ks : DerivedKey → List Nat → Nat → List Nat)
    (hkslen : ∀ k iv n, (ks k iv n).length = n)
    (hksB : ∀ k iv n, ∀ b ∈ ks k iv n, b < 256)
    (P K : String) (saltBytes ivBytes : List Nat)
    (hsalt : saltBytes.length = 16) (hiv : ivBytes.length = 12)
    (hsaltB : ∀ b ∈ saltBytes, b < 256) (hivB : ∀ b ∈ ivBytes, b < 256) :
    EncryptionService.decrypt ks
        (EncryptionService.encrypt ks P K saltBytes ivBytes).encrypted K
        (EncryptionService.encrypt ks P K saltBytes ivBytes).salt
        (EncryptionService.encrypt ks P K saltBytes ivBytes).iv
        (EncryptionService.encrypt ks P K saltBytes ivBytes).authTag
      = some (utf8Encode P) := by
  have hstream := hkslen (EncryptionService.deriveKey K saltBytes) ivBytes
    (utf8Encode P).length
  have hct : ∀ b ∈ zipXor (utf8Encode P)
      (ks (EncryptionService.deriveKey K saltBytes) ivBytes (utf8Encode P).length),
      b < 256 :=
    zipXor_lt _ _ (utf8Encode_lt P) (hksB _ _ _)
  have hctlen : (zipXor (utf8Encode P)
      (ks (EncryptionService.deriveKey K saltBytes) ivBytes (utf8Encode P).length)).length
      = (utf8Encode P).length := by
    rw [zipXor_length, hstream, min_self]
  simp only [EncryptionService.encrypt, EncryptionService.decrypt,
    hexDecode_hexEncode _ hsaltB, hexDecode_hexEncode _ hivB,
    hexDecode_hexEncode _ hct]
  rw [if_pos ⟨by rw [hsalt]; rfl, by rw [hiv]; rfl⟩, if_pos trivial, hctlen]
  exact congrArg some (zipXor_zipXor _ _ (le_of_eq hstream.symm))

/-- Witness for C1 at a concrete input: the multi-byte Unicode plaintext
`pässwörd🔑`, the master secret `correct-horse-battery-staple`, a concrete
salt and nonce and a concrete keystream. -/
theorem encryptionService_roundtrip_check :
    EncryptionService.decrypt (fun _ _ n => List.replicate n 7)
        (EncryptionService.encrypt (fun _ _ n => List.replicate n 7)
          "pässwörd🔑" "correct-horse-battery-staple"
          (List.replicate 16 3) (List.replicate 12 5)).encrypted
        "correct-horse-battery-staple"
        (EncryptionService.encrypt (fun _ _ n => List.replicate n 7)
          "pässwörd🔑" "correct-horse-battery-staple"
          (List.replicate 16 3) (List.replicate 12 5)).salt
        (EncryptionService.encrypt (fun _ _ n => List.replicate n 7)
          "pässwörd🔑" "correct-horse-battery-staple"
          (List.replicate 16 3) (List.replicate 12 5)).iv
        (EncryptionService.encrypt (fun _ _ n => List.replicate n 7)
          "pässwörd🔑" "correct-horse-battery-staple"
          (List.replicate 16 3) (List.replicate 12 5)).authTag
      = some (utf8Encode "pässwörd🔑") :=
  encryptionService_decrypt_encrypt_roundtrip _
    (fun _ _ _ => List.length_replicate _ _)
    (fun _ _ n b hb => by rw [List.eq_of_mem_replicate hb]; omega)
    "pässwörd🔑" "correct-horse-battery-staple" _ _
    (List.length_replicate _ _) (List.length_replicate _ _)
    (fun b hb => by rw [List.eq_of_mem_replicate hb]; omega)
    (fun b hb => by rw [List.eq_of_mem_replicate hb]; omega)

/-- C7 (amended): the Web Crypto client pair uses the single-blob layout:
`SecureClientEncryption.encrypt` base64-encodes
`salt(16) ++ nonce(12) ++ ciphertext ++ tag(16)` (the AEAD output being
`ciphertext ++ tag`), and the fixed-offset slicing of
`SecureClientDecryption.decrypt` recovers exactly the original salt, nonce
and AEAD payload, whose last 16 bytes are the tag. -/
theorem secureClient_envelope_blob_layout
    (salt iv ct tag : List Nat)
    (hs : salt.length = 16) (hiv : iv.length = 12) (htag : tag.length = 16)
    (hsB : ∀ b ∈ salt, b < 256) (hivB : ∀ b ∈ iv, b < 256)
    (hctB : ∀ b ∈ ct, b < 256) (htagB : ∀ b ∈ tag, b < 256) :
    atobBytes (SecureClientEncryption.encryptBlob salt iv (ct ++ tag))
      = some (SecureClientEncryption.combined salt iv (ct ++ tag)) ∧
    SecureClientDecryption.sliceCombined
        (SecureClientEncryption.combined salt iv (ct ++ tag))
      = (salt, iv, ct ++ tag) ∧
    (ct ++ tag).take ((ct ++ tag).length - 16) = ct ∧
    (ct ++ tag).drop ((ct ++ tag).length - 16) = tag := by
  have hrest : ∀ b ∈ ct ++ tag, b < 256 := by
    intro b hb
    rcases List.mem_append.mp hb with h | h
    · exact hctB b h
    · exact htagB b h
  have hall : ∀ b ∈ SecureClientEncryption.combined salt iv (ct ++ tag), b < 256 := by
    intro b hb
    unfold SecureClientEncryption.combined at hb
    rcases List.mem_append.mp hb with h | h
    · rcases List.mem_append.mp h with h2 | h2
      · exact hsB b h2
      · exact hivB b h2
    · exact hrest b h
  refine ⟨atobBytes_btoaBytes _ hall, ?_, ?_, ?_⟩
  · unfold SecureClientDecryption.sliceCombined SecureClientEncryption.combined
    rw [List.append_assoc]
    simp only [Prod.mk.injEq]
    refine ⟨?_, ?_, ?_⟩
    · rw [← hs]; exact List.take_left _ _
    · rw [← hs, List.drop_left, ← hiv]; exact List.take_left _ _
    · rw [show (28 : Nat) = 16 + 12 from rfl, ← List.drop_drop, ← hs,
        List.drop_left, ← hiv, List.drop_left]
  · have : (ct ++ tag).length - 16 = ct.length := by
      rw [List.length_append, htag]; omega
    rw [this, List.take_left]
  · have : (ct ++ tag).length - 16 = ct.length := by
      rw [List.length_append, htag]; omega
    rw [this, List.drop_left]

/-- Witness for C7 at a concrete envelope: 16 salt bytes 1, 12 nonce bytes
2, ciphertext `[10, 20, 30]`, 16 tag bytes 4. -/
theorem secureClient_envelope_blob_layout_check :
    atobBytes (SecureClientEncryption.encryptBlob (List.replicate 16 1)
        (List.replicate 12 2) ([10, 20, 30] ++ List.replicate 16 4))
      = some (SecureClientEncryption.combined (List.replicate 16 1)
        (List.replicate 12 2) ([10, 20, 30] ++ List.replicate 16 4)) ∧
    SecureClientDecryption.sliceCombined
        (SecureClientEncryption.combined (List.replicate 16 1)
          (List.replicate 12 2) ([10, 20, 30] ++ List.replicate 16 4))
      = (List.replicate 16 1, List.replicate 12 2,
          [10, 20, 30] ++ List.replicate 16 4) ∧
    ([10, 20, 30] ++ List.replicate 16 4).take
        (([10, 20, 30] ++ List.replicate 16 4).length - 16) = [10, 20, 30] ∧
    ([10, 20, 30] ++ List.replicate 16 4).drop
        (([10, 20, 30] ++ List.replicate 16 4).length - 16)
      = List.replicate 16 4 :=
  secureClient_envelope_blob_layout _ _ _ _ (by decide) (by decide) (by decide)
    (by decide) (by decide) (by decide) (by decide)

set_option maxRecDepth 8000 in
set_option maxHeartbeats 1000000 in
/-- Counterexample for C7 as stated: `EncryptionService.encryptForStorage`,
cited by the claim, does not use the concatenation layout — its blob is
base64 of a JSON object of four hex strings, so slicing the decoded blob at
the fixed offsets does not recover the salt.  Concretely, with an all-zero
16-byte salt, the first 16 decoded bytes are JSON punctuation and hex text,
not the salt bytes. -/
theorem encryptForStorage_blob_is_not_offset_layout :
    (atobBytes (EncryptionService.encryptForStorage (fun _ _ n => List.replicate n 0)
        "hunter2" "master" (List.replicate 16 0) (List.replicate 12 0)
        (List.replicate 32 48))).map (fun c => c.take 16)
      ≠ some (List.replicate 16 0) := by
  decide

theorem fallbackFeedback_ne_nil (fb : List String) :
    (if fb = [] then ["Strong password!"] else fb) ≠ [] := by
  split
  · simp
  · assumption

/-- C9: for every input string, `calculateStrength` returns a score between
0 and 10 inclusive together with a never-empty feedback list (a
congratulatory message is substituted when no deficiencies were recorded),
and `calculatePasswordStrength` returns a score between 0 and 100
inclusive. -/
theorem strength_scores_bounded (pwd : String) :
    0 ≤ (calculateStrength pwd).score ∧
    (calculateStrength pwd).score ≤ 10 ∧
    (calculateStrength pwd).feedback ≠ [] ∧
    0 ≤ ClientEncryption.calculatePasswordStrength pwd ∧
    ClientEncryption.calculatePasswordStrength pwd ≤ 100 := by
  have hb2i : ∀ b, 0 ≤ b2i b ∧ b2i b ≤ 1 := by
    intro b; cases b <;> simp [b2i]
  have hlen : 0 ≤ lengthScore pwd.data.length ∧ lengthScore pwd.data.length ≤ 3 := by
    unfold lengthScore; split_ifs <;> omega
  have hvar : 0 ≤ varietyScore pwd.data ∧ varietyScore pwd.data ≤ 4 := by
    unfold varietyScore
    have h1 := hb2i (pwd.data.any isLowerAlpha)
    have h2 := hb2i (pwd.data.any isUpperAlpha)
    have h3 := hb2i (pwd.data.any isDigitCh)
    have h4 := hb2i (pwd.data.any isSymbolCh)
    omega
  have hent : 0 ≤ entropyBonus pwd.data ∧ entropyBonus pwd.data ≤ 3 := by
    unfold entropyBonus; split_ifs <;> omega
  refine ⟨?_, ?_, ?_, ?_, ?_⟩
  · unfold calculateStrength
    dsimp only
    refine le_min ?_ (by norm_num)
    split
    · exact le_max_left 0 _
    · split
      · exact le_max_left 0 _
      · split
        · exact le_max_left 0 _
        · omega
  · unfold calculateStrength
    dsimp only
    exact min_le_right _ 10
  · unfold calculateStrength
    dsimp only
    exact fallbackFeedback_ne_nil _
  · unfold ClientEncryption.calculatePasswordStrength
    dsimp only
    refine le_min ?_ (by norm_num)
    have h1 : 0 ≤ (if 8 ≤ pwd.data.length then (25 : Int) else 0) +
        (if 12 ≤ pwd.data.length then (15 : Int) else 0) +
        (if 16 ≤ pwd.data.length then (10 : Int) else 0) := by
      split_ifs <;> norm_num
    have h2 : 0 ≤ (if pwd.data.any isLowerAlpha then (10 : Int) else 0) +
        (if pwd.data.any isUpperAlpha then (10 : Int) else 0) +
        (if pwd.data.any isDigitCh then (10 : Int) else 0) +
        (if pwd.data.any isSymbolCh then (10 : Int) else 0) := by
      split_ifs <;> norm_num
    have h3 : 0 ≤ (if charSetSize pwd.data = 0 then (0 : Int)
        else if entropyExceeds (charSetSize pwd.data) pwd.data.length 100 then 20
        else if entropyExceeds (charSetSize pwd.data) pwd.data.length 80 then 15
        else if entropyExceeds (charSetSize pwd.data) pwd.data.length 60 then 10
        else if entropyExceeds (charSetSize pwd.data) pwd.data.length 40 then 5
        else 0) := by
      split_ifs <;> norm_num
    exact add_nonneg (add_nonneg h1 h2) h3
  · unfold ClientEncryption.calculatePasswordStrength
    dsimp only
    exact min_le_right _ 100

/-- C10 (amended): for every non-empty key and every plaintext whose
UTF-16 code units are all at most 255, provided the key code units are also
at most 255 (otherwise `btoa` throws inside `encrypt`, see the
counterexample), the XOR fallback round-trips: `encrypt` yields the base64
of the XOR stream, decrypting that blob with the same key returns the
plaintext, and the result of `decrypt` is independent of its ignored `salt`
and `iv` arguments. -/
theorem simpleClientEncryption_xor_roundtrip
    (data key salt iv salt' iv' rand1 rand2 : List Nat)
    (hkey : key ≠ []) (hdata : ∀ c ∈ data, c < 256) (hkeyB : ∀ c ∈ key, c < 256) :
    (SimpleClientEncryption.encrypt data key rand1 rand2).encrypted
      = some (btoaBytes (xorWithKey key 0 data)) ∧
    SimpleClientEncryption.decrypt (btoaBytes (xorWithKey key 0 data)) key salt iv
      = data ∧
    SimpleClientEncryption.decrypt (btoaBytes (xorWithKey key 0 data)) key salt iv
      = SimpleClientEncryption.decrypt (btoaBytes (xorWithKey key 0 data)) key salt' iv' := by
  have hxb : ∀ b ∈ xorWithKey key 0 data, b < 256 :=
    xorWithKey_lt key hkeyB 0 data hdata
  refine ⟨?_, ?_, rfl⟩
  · show btoa (xorWithKey key 0 data) = _
    unfold btoa
    rw [if_pos (List.all_eq_true.mpr fun b hb => decide_eq_true (hxb b hb))]
  · unfold SimpleClientEncryption.decrypt
    rw [atobBytes_btoaBytes _ hxb]
    exact xorWithKey_xorWithKey key 0 data

/-- Witness for C10 at a concrete input: plaintext `hunter2`, key `vault`,
arbitrary ignored salt/iv pairs. -/
theorem simpleClientEncryption_xor_roundtrip_check :
    (SimpleClientEncryption.encrypt (jsStr "hunter2") (jsStr "vault")
        [1] [2]).encrypted
      = some (btoaBytes (xorWithKey (jsStr "vault") 0 (jsStr "hunter2"))) ∧
    SimpleClientEncryption.decrypt
        (btoaBytes (xorWithKey (jsStr "vault") 0 (jsStr "hunter2")))
        (jsStr "vault") [3] [4]
      = jsStr "hunter2" ∧
    SimpleClientEncryption.decrypt
        (btoaBytes (xorWithKey (jsStr "vault") 0 (jsStr "hunter2")))
        (jsStr "vault") [3] [4]
      = SimpleClientEncryption.decrypt
          (btoaBytes (xorWithKey (jsStr "vault") 0 (jsStr "hunter2")))
          (jsStr "vault") [5] [6] :=
  simpleClientEncryption_xor_roundtrip (jsStr "hunter2") (jsStr "vault")
    [3] [4] [5] [6] [1] [2] (by decide) (by decide) (by decide)

/-- Counterexample for C10 as stated (quantifying over every non-empty
key): with the key `Ā` (code unit 256) and the one-byte plaintext `a`, the
XOR stream contains the value 353, `btoa` throws, and `encrypt` produces no
blob at all, so the round trip fails. -/
theorem simpleClientEncryption_xor_high_key_fails :
    jsStr "Ā" ≠ [] ∧ (∀ c ∈ jsStr "a", c ≤ 255) ∧
    (SimpleClientEncryption.encrypt (jsStr "a") (jsStr "Ā") [] []).encrypted
      = none := by
  decide

/-! ## Supporting lemmas: CBC malleability for an arbitrary block cipher

The counterexample for C3 instantiates the AES block permutation with the
identity; the lemmas below show the behavior is independent of that choice:
for every block-decryption function, flipping any bit of the first iv byte
of a two-block `SimpleEncryptionService` envelope that decrypts
successfully still decrypts successfully, to a plaintext altered in exactly
that bit. -/

theorem flipHeadBit_length (j : Nat) (l : List Nat) :
    (flipHeadBit j l).length = l.length := by
  cases l <;> simp [flipHeadBit]

theorem flipHeadBit_ne (j : Nat) (l : List Nat) (h : l ≠ []) :
    flipHeadBit j l ≠ l := by
  cases l with
  | nil => exact absurd rfl h
  | cons x xs =>
    simp only [flipHeadBit, ne_eq, List.cons.injEq, not_and]
    intro hx
    exfalso
    have h2 : (2 : Nat) ^ j = 0 := by
      calc (2 : Nat) ^ j = x ^^^ (x ^^^ 2 ^ j) := (Nat.xor_cancel_left x (2 ^ j)).symm
      _ = x ^^^ x := by rw [hx]
      _ = 0 := Nat.xor_self x
    have h3 : 0 < (2 : Nat) ^ j := by positivity
    omega

theorem flipHeadBit_drop (j n : Nat) (l : List Nat) (hn : 1 ≤ n) :
    (flipHeadBit j l).drop n = l.drop n := by
  cases l with
  | nil => rfl
  | cons x xs =>
    obtain ⟨m, rfl⟩ : ∃ m, n = m + 1 := ⟨n - 1, by omega⟩
    simp [flipHeadBit]

theorem flipHeadBit_take (j n : Nat) (l : List Nat) (hn : 1 ≤ n) :
    (flipHeadBit j l).take n = flipHeadBit j (l.take n) := by
  cases l with
  | nil => simp [flipHeadBit]
  | cons x xs =>
    obtain ⟨m, rfl⟩ : ∃ m, n = m + 1 := ⟨n - 1, by omega⟩
    simp [flipHeadBit]

theorem flipHeadBit_getLast? (j : Nat) (l : List Nat) (h : 2 ≤ l.length) :
    (flipHeadBit j l).getLast? = l.getLast? := by
  match l, h with
  | x :: y :: ys, _ => simp [flipHeadBit, List.getLast?_cons_cons]

theorem flipHeadBit_lt (j : Nat) (hj : j < 8) (l : List Nat)
    (h : ∀ b ∈ l, b < 256) : ∀ b ∈ flipHeadBit j l, b < 256 := by
  cases l with
  | nil => simp [flipHeadBit]
  | cons x xs =>
    intro b hb
    simp only [flipHeadBit, List.mem_cons] at hb
    rcases hb with rfl | hb
    · exact xor_lt_256 (h x (by simp)) (by
        have : (2 : Nat) ^ j ≤ 2 ^ 7 := Nat.pow_le_pow_right (by norm_num) (by omega)
        omega)
    · exact h b (by simp [hb])

theorem pkcs7Unpad_flipHeadBit (j : Nat) (l : List Nat) (h : 17 ≤ l.length) :
    pkcs7Unpad (flipHeadBit j l) = (pkcs7Unpad l).map (flipHeadBit j) := by
  unfold pkcs7Unpad
  rw [flipHeadBit_getLast? j l (by omega), flipHeadBit_length]
  cases hl : l.getLast? with
  | none => rfl
  | some k =>
    dsimp only
    by_cases hk : k ≤ 16
    · rw [flipHeadBit_drop j (l.length - k) l (by omega)]
      split_ifs with hc
      · rw [flipHeadBit_take j (l.length - k) l (by omega)]
        rfl
      · rfl
    · rw [if_neg (by tauto), if_neg (by tauto)]
      rfl

theorem pkcs7Unpad_some (l p : List Nat) (h : pkcs7Unpad l = some p) :
    ∃ k, l.getLast? = some k ∧ 1 ≤ k ∧ k ≤ 16 ∧ k ≤ l.length ∧
      p = l.take (l.length - k) := by
  unfold pkcs7Unpad at h
  cases hl : l.getLast? with
  | none => rw [hl] at h; exact absurd h (by simp)
  | some k =>
    rw [hl] at h
    dsimp only at h
    split_ifs at h with hc
    exact ⟨k, rfl, hc.1, hc.2.1, hc.2.2.1, (Option.some.inj h).symm⟩

theorem toBlocks_two (c1 c2 : List Nat) (h1 : c1.length = 16) (h2 : c2.length = 16) :
    toBlocks (c1 ++ c2) = [c1, c2] := by
  obtain ⟨a, as, rfl⟩ : ∃ a as, c1 = a :: as := by
    cases c1 with
    | nil => simp at h1
    | cons a as => exact ⟨a, as, rfl⟩
  obtain ⟨b, bs, rfl⟩ : ∃ b bs, c2 = b :: bs := by
    cases c2 with
    | nil => simp at h2
    | cons b bs => exact ⟨b, bs, rfl⟩
  unfold toBlocks
  have hlen : ((a :: as) ++ (b :: bs)).length = 32 := by
    simp only [List.length_append, h1, h2]
  rw [hlen]
  have hcons : toBlocksAux 32 ((a :: as) ++ (b :: bs))
      = ((a :: as) ++ (b :: bs)).take 16
        :: toBlocksAux 31 (((a :: as) ++ (b :: bs)).drop 16) := rfl
  rw [hcons]
  have htake : ((a :: as) ++ (b :: bs)).take 16 = a :: as := by
    rw [← h1]; exact List.take_left _ _
  have hdrop : ((a :: as) ++ (b :: bs)).drop 16 = b :: bs := by
    rw [← h1]; exact List.drop_left _ _
  rw [htake, hdrop]
  have hcons2 : toBlocksAux 31 (b :: bs)
      = (b :: bs).take 16 :: toBlocksAux 30 ((b :: bs).drop 16) := rfl
  rw [hcons2]
  have htake2 : (b :: bs).take 16 = b :: bs :=
    List.take_of_length_le (by rw [h2])
  have hdrop2 : (b :: bs).drop 16 = [] := List.drop_eq_nil_of_le (by rw [h2])
  rw [htake2, hdrop2]
  rfl

theorem cbcDecRun_two_iv_flip (D : List Nat → List Nat) (c1 c2 iv : List Nat)
    (j : Nat) (hd1 : D c1 ≠ []) (hiv : iv ≠ []) :
    cbcDecRun D (flipHeadBit j iv) [c1, c2]
      = flipHeadBit j (cbcDecRun D iv [c1, c2]) := by
  obtain ⟨a, as, hD⟩ := List.exists_cons_of_ne_nil hd1
  obtain ⟨b, bs, hIv⟩ := List.exists_cons_of_ne_nil hiv
  show zipXor (D c1) (flipHeadBit j iv) ++ cbcDecRun D c1 [c2]
    = flipHeadBit j (zipXor (D c1) iv ++ cbcDecRun D c1 [c2])
  rw [hD, hIv]
  simp only [flipHeadBit, zipXor, List.zipWith_cons_cons, List.cons_append]
  rw [← Nat.xor_assoc]

theorem cbcDecRun_two_length (D : List Nat → List Nat) (c1 c2 iv : List Nat)
    (hd1 : (D c1).length = 16) (hd2 : (D c2).length = 16)
    (hiv : iv.length = 16) (h1 : c1.length = 16) :
    (cbcDecRun D iv [c1, c2]).length = 32 := by
  show (zipXor (D c1) iv ++ (zipXor (D c2) c1 ++ [])).length = 32
  simp [zipXor_length, hd1, hd2, hiv, h1]

/-- For every AES block permutation, every master password, and every
two-block aes-256-cbc envelope that decrypts successfully, flipping bit
`j < 8` of the first iv byte yields an envelope that still decrypts
successfully, to the plaintext altered in exactly that bit. -/
theorem simpleEncryptionService_iv_flip_general
    (D : DerivedKey → List Nat → List Nat)
    (hD : ∀ k b, (D k b).length = 16)
    (master : String) (saltB ivB c1 c2 p : List Nat) (j : Nat) (hj : j < 8)
    (hsB : ∀ b ∈ saltB, b < 256) (hivB : ∀ b ∈ ivB, b < 256)
    (hcB : ∀ b ∈ c1 ++ c2, b < 256)
    (hivl : ivB.length = 16) (h1 : c1.length = 16) (h2 : c2.length = 16)
    (hdec : SimpleEncryptionService.decrypt D (hexEncode (c1 ++ c2)) master
      (hexEncode saltB) (hexEncode ivB) = some p) :
    SimpleEncryptionService.decrypt D (hexEncode (c1 ++ c2)) master
      (hexEncode saltB) (hexEncode (flipHeadBit j ivB)) = some (flipHeadBit j p)
    ∧ flipHeadBit j p ≠ p := by
  have hivB' : ∀ b ∈ flipHeadBit j ivB, b < 256 := flipHeadBit_lt j hj ivB hivB
  have hivl' : (flipHeadBit j ivB).length = 16 := by rw [flipHeadBit_length, hivl]
  have hctl : (c1 ++ c2).length = 32 := by simp [h1, h2]
  have hrunlen : (cbcDecRun (D (SimpleEncryptionService.deriveKey master saltB))
      ivB (toBlocks (c1 ++ c2))).length = 32 := by
    rw [toBlocks_two c1 c2 h1 h2]
    exact cbcDecRun_two_length _ c1 c2 ivB (hD _ _) (hD _ _) hivl h1
  unfold SimpleEncryptionService.decrypt at hdec ⊢
  rw [hexDecode_hexEncode _ hsB, hexDecode_hexEncode _ hivB,
    hexDecode_hexEncode _ hcB] at hdec
  rw [hexDecode_hexEncode _ hsB, hexDecode_hexEncode _ hivB',
    hexDecode_hexEncode _ hcB]
  dsimp only at hdec ⊢
  rw [if_pos ⟨hivl, by intro hn; rw [hn] at hctl; simp at hctl, by rw [hctl]⟩] at hdec
  rw [if_pos ⟨hivl', by intro hn; rw [hn] at hctl; simp at hctl, by rw [hctl]⟩]
  have hne : ivB ≠ [] := by
    intro hn; rw [hn] at hivl; simp at hivl
  have hdne : D (SimpleEncryptionService.deriveKey master saltB) c1 ≠ [] := by
    intro hn
    have := hD (SimpleEncryptionService.deriveKey master saltB) c1
    rw [hn] at this; simp at this
  rw [toBlocks_two c1 c2 h1 h2] at hdec ⊢
  rw [cbcDecRun_two_iv_flip _ c1 c2 ivB j hdne hne,
    pkcs7Unpad_flipHeadBit j _ (by
      rw [cbcDecRun_two_length _ c1 c2 ivB (hD _ _) (hD _ _) hivl h1]; omega),
    hdec]
  constructor
  · rfl
  · apply flipHeadBit_ne
    obtain ⟨k, _, _, hk16, _, hp⟩ := pkcs7Unpad_some _ _ hdec
    intro hpn
    rw [hpn] at hp
    have := congrArg List.length hp
    rw [List.length_take, cbcDecRun_two_length _ c1 c2 ivB (hD _ _) (hD _ _) hivl h1]
      at this
    simp at this
    omega

/-! ## Supporting lemmas: UTF-8 injectivity and ideal-AEAD rejection

UTF-8 is a prefix-free code, so distinct master-secret strings derive
distinct ideal keys; with the GCM tag modelled ideally, this yields
wrong-key rejection and tamper rejection for the `SecurityService` AEAD
path (the positive side of claims C2 and C3). -/

theorem char_toNat_injective (c1 c2 : Char) (h : c1.toNat = c2.toNat) : c1 = c2 := by
  apply Char.ext
  apply UInt32.ext
  exact h

theorem utf8EncodeChar_ne_nil (c : Char) : utf8EncodeChar c ≠ [] := by
  unfold utf8EncodeChar
  split_ifs <;> simp

theorem utf8EncodeChar_append_inj {c1 c2 : Char} {r1 r2 : List Nat}
    (h : utf8EncodeChar c1 ++ r1 = utf8EncodeChar c2 ++ r2) : c1 = c2 ∧ r1 = r2 := by
  have v1 := char_toNat_lt c1
  have v2 := char_toNat_lt c2
  unfold utf8EncodeChar at h
  split_ifs at h <;>
    simp only [List.cons_append, List.nil_append, List.cons.injEq] at h <;>
    first
      | (obtain ⟨e1, er⟩ := h
         exact ⟨char_toNat_injective c1 c2 (by omega), er⟩)
      | (obtain ⟨e1, e2, er⟩ := h
         exact ⟨char_toNat_injective c1 c2 (by omega), er⟩)
      | (obtain ⟨e1, e2, e3, er⟩ := h
         exact ⟨char_toNat_injective c1 c2 (by omega), er⟩)
      | (obtain ⟨e1, e2, e3, e4, er⟩ := h
         exact ⟨char_toNat_injective c1 c2 (by omega), er⟩)
      | (exfalso; obtain ⟨e1, -⟩ := h; omega)

theorem utf8Encode_chars_inj : ∀ (l1 l2 : List Char),
    (l1.map utf8EncodeChar).flatten = (l2.map utf8EncodeChar).flatten → l1 = l2 := by
  intro l1
  induction l1 with
  | nil =>
    intro l2 h
    cases l2 with
    | nil => rfl
    | cons c cs =>
      exfalso
      simp only [List.map_nil, List.flatten_nil, List.map_cons, List.flatten_cons] at h
      exact utf8EncodeChar_ne_nil c (List.append_eq_nil.mp h.symm).1
  | cons c cs ih =>
    intro l2 h
    cases l2 with
    | nil =>
      exfalso
      simp only [List.map_nil, List.flatten_nil, List.map_cons, List.flatten_cons] at h
      exact utf8EncodeChar_ne_nil c (List.append_eq_nil.mp h).1
    | cons d ds =>
      simp only [List.map_cons, List.flatten_cons] at h
      obtain ⟨hc, hr⟩ := utf8EncodeChar_append_inj h
      rw [hc, ih ds hr]

theorem utf8Encode_inj {s1 s2 : String} (h : utf8Encode s1 = utf8Encode s2) :
    s1 = s2 := by
  cases s1; cases s2
  exact congrArg String.mk (utf8Encode_chars_inj _ _ h)

/-- Wrong-key rejection on the `SecurityService` AEAD path: for all
distinct master secrets K1 and K2, decrypting `encrypt(P, K1)` with K2
fails (in the ideal-AEAD model, where the GCM tag authenticates the
derived key). -/
theorem securityService_wrong_key_rejected
    (ks : DerivedKey → List Nat → Nat → List Nat)
    (hksB : ∀ k iv n, ∀ b ∈ ks k iv n, b < 256)
    (P K1 K2 : String) (saltB ivB : List Nat)
    (hK : K1 ≠ K2)
    (hsB : ∀ b ∈ saltB, b < 256) (hivB : ∀ b ∈ ivB, b < 256) :
    SecurityService.decrypt ks
      (SecurityService.encrypt ks P K1 saltB ivB).encrypted K2
      (SecurityService.encrypt ks P K1 saltB ivB).salt
      (SecurityService.encrypt ks P K1 saltB ivB).iv
      (SecurityService.encrypt ks P K1 saltB ivB).authTag = none := by
  simp only [SecurityService.encrypt, SecurityService.decrypt,
    hexDecode_hexEncode _ hsB, hexDecode_hexEncode _ hivB,
    hexDecode_hexEncode _ (zipXor_lt _ _ (utf8Encode_lt P) (hksB _ _ _))]
  rw [if_neg]
  intro hEq
  apply hK
  apply utf8Encode_inj
  have := congrArg (fun t => t.key.material) hEq
  simpa [SecurityService.deriveKey, pbkdf2Sync] using this

/-- Tamper rejection on the `SecurityService` AEAD path: with the GCM tag
modelled ideally, decryption fails on any modified ciphertext, any modified
nonce, and any modified tag (single-bit flips included, since a bit flip
changes the byte list). -/
theorem securityService_tamper_rejected
    (ks : DerivedKey → List Nat → Nat → List Nat)
    (hksB : ∀ k iv n, ∀ b ∈ ks k iv n, b < 256)
    (P K : String) (saltB ivB ct' iv' : List Nat) (tag' : GcmTag)
    (hsB : ∀ b ∈ saltB, b < 256) (hivB : ∀ b ∈ ivB, b < 256)
    (hct'B : ∀ b ∈ ct', b < 256) (hiv'B : ∀ b ∈ iv', b < 256) :
    (ct' ≠ zipXor (utf8Encode P)
        (ks (SecurityService.deriveKey K saltB) ivB (utf8Encode P).length) →
      SecurityService.decrypt ks (hexEncode ct') K
        (SecurityService.encrypt ks P K saltB ivB).salt
        (SecurityService.encrypt ks P K saltB ivB).iv
        (SecurityService.encrypt ks P K saltB ivB).authTag = none) ∧
    (iv' ≠ ivB →
      SecurityService.decrypt ks
        (SecurityService.encrypt ks P K saltB ivB).encrypted K
        (SecurityService.encrypt ks P K saltB ivB).salt
        (hexEncode iv')
        (SecurityService.encrypt ks P K saltB ivB).authTag = none) ∧
    (tag' ≠ (SecurityService.encrypt ks P K saltB ivB).authTag →
      SecurityService.decrypt ks
        (SecurityService.encrypt ks P K saltB ivB).encrypted K
        (SecurityService.encrypt ks P K saltB ivB).salt
        (SecurityService.encrypt ks P K saltB ivB).iv tag' = none) := by
  refine ⟨?_, ?_, ?_⟩
  · intro hne
    simp only [SecurityService.encrypt, SecurityService.decrypt,
      hexDecode_hexEncode _ hsB, hexDecode_hexEncode _ hivB,
      hexDecode_hexEncode _ hct'B]
    rw [if_neg]
    intro hEq
    exact hne (congrArg (fun t => t.ct) hEq).symm
  · intro hne
    simp only [SecurityService.encrypt, SecurityService.decrypt,
      hexDecode_hexEncode _ hsB, hexDecode_hexEncode _ hiv'B,
      hexDecode_hexEncode _ (zipXor_lt _ _ (utf8Encode_lt P) (hksB _ _ _))]
    rw [if_neg]
    intro hEq
    exact hne (congrArg (fun t => t.iv) hEq).symm
  · intro hne
    simp only [SecurityService.encrypt, SecurityService.decrypt,
      hexDecode_hexEncode _ hsB, hexDecode_hexEncode _ hivB,
      hexDecode_hexEncode _ (zipXor_lt _ _ (utf8Encode_lt P) (hksB _ _ _))]
    rw [if_neg]
    exact hne

/-- Injectivity of the hex encoding on byte lists. -/
theorem hexEncode_inj {a b : List Nat} (ha : ∀ x ∈ a, x < 256)
    (hb : ∀ x ∈ b, x < 256) (h : hexEncode a = hexEncode b) : a = b := by
  have := hexDecode_hexEncode a ha
  rw [h, hexDecode_hexEncode b hb] at this
  exact (Option.some.inj this).symm

/-- The `SecurityService` AEAD path stores exactly the fresh salt and nonce
it was given: distinct random draws yield envelopes with distinct salt and
nonce fields. -/
theorem securityService_fresh_salt_nonce
    (ks : DerivedKey → List Nat → Nat → List Nat)
    (P K : String) (s1 s2 iv1 iv2 : List Nat)
    (hs1 : ∀ b ∈ s1, b < 256) (hs2 : ∀ b ∈ s2, b < 256)
    (hiv1 : ∀ b ∈ iv1, b < 256) (hiv2 : ∀ b ∈ iv2, b < 256)
    (hs : s1 ≠ s2) (hiv : iv1 ≠ iv2) :
    (SecurityService.encrypt ks P K s1 iv1).salt
      ≠ (SecurityService.encrypt ks P K s2 iv2).salt ∧
    (SecurityService.encrypt ks P K s1 iv1).iv
      ≠ (SecurityService.encrypt ks P K s2 iv2).iv := by
  constructor
  · intro h
    exact hs (hexEncode_inj hs1 hs2 h)
  · intro h
    exact hiv (hexEncode_inj hiv1 hiv2 h)

end Vault
